import Mathlib

/-!
Verification of the subscription-bridging logic of a React adapter for
observable stores.  The definitions below are a shallow embedding of the
library's hooks (`useReadonlyStore`, `useReadonlyStores`, `useStore`) and of
the external store contract they rely on.
-/

namespace StoresReactAdapter

/-! ### The external Store Contract

Modelled from the spec: the store abstraction is an external collaborator.
A store holds a current value together with a pluggable equality comparator;
`set(value)` replaces the value and notifies subscribers only if the new
value fails the equality check against the old one, and `update(fn)` computes
the new value from the old via `fn` with the same delivery rule. -/

/-- A store's internal state: its equality comparator and its current value. -/
structure StoreState (V : Type) where
  eqComp : V → V → Bool
  value : V

/-- An external mutation of a store: `set v` or `update f`. -/
inductive Mutation (V : Type) where
  | set (v : V)
  | update (f : V → V)

/-- The value a mutation would install, given the current value
(`update f` computes `f cur`, `set v` installs `v`). -/
def Mutation.newValue {V : Type} (m : Mutation V) (cur : V) : V :=
  match m with
  | .set v => v
  | .update f => f cur

/-- Modelled from the spec: applying a mutation to a store.  Returns the
updated store state and the value delivered to subscribers, if any: the
store delivers exactly when the new value fails the equality check against
the immediately preceding value. -/
def StoreState.applyMutation {V : Type} (s : StoreState V) (m : Mutation V) :
    StoreState V × Option V :=
  if s.eqComp s.value (m.newValue s.value) then (s, none)
  else ({ s with value := m.newValue s.value }, some (m.newValue s.value))

/-! ### The single-store bridge's subscriber callback (hooks.ts, lines 56-91) -/

/-- `Number.MAX_SAFE_INTEGER`. -/
def maxSafeInteger : Nat := 9007199254740991

/-- The re-render flag update `(r) => (r + 1) % Number.MAX_SAFE_INTEGER`
passed to `setRerenderFlag` (hooks.ts, line 90). -/
def nextRerenderFlag (r : Nat) : Nat :=
  (r + 1) % maxSafeInteger

/-- The state visible to the subscriber callback of `useReadonlyStore`:
the mutable value wrapper (`none` models the initial `undefined`), the
`firstSubscriberCall` flag, the `rerenderFlag` state cell, and a ghost
counter of how many re-renders have been scheduled via `setRerenderFlag`. -/
structure SubscriberState (V : Type) where
  wrappedValue : Option V
  firstSubscriberCall : Bool
  rerenderFlag : Nat
  rerendersScheduled : Nat

/-- The state at the point of `store.subscribe(...)`:
`const wrappedValue = {value: undefined}` and `let firstSubscriberCall = true`
(hooks.ts, lines 73-75). -/
def initialSubscriberState {V : Type} (flag : Nat) : SubscriberState V :=
  { wrappedValue := none
    firstSubscriberCall := true
    rerenderFlag := flag
    rerendersScheduled := 0 }

/-- The subscriber callback of `useReadonlyStore` (hooks.ts, lines 79-91):
store the delivered value in the wrapper; on the first call just clear the
flag and return; otherwise schedule a re-render through `setRerenderFlag`. -/
def subscriberCallback {V : Type} (st : SubscriberState V) (v : V) :
    SubscriberState V :=
  let st := { st with wrappedValue := some v }
  if st.firstSubscriberCall then
    { st with firstSubscriberCall := false }
  else
    { st with
        rerenderFlag := nextRerenderFlag st.rerenderFlag
        rerendersScheduled := st.rerendersScheduled + 1 }

/-- Subscribing to a store: per the store contract, `subscribe` synchronously
invokes the listener once with the current value before returning. -/
def subscribeToStore {V : Type} (s : StoreState V) (flag : Nat) :
    SubscriberState V :=
  subscriberCallback (initialSubscriberState flag) s.value

/-- Running a sequence of external mutations against a store with a live
subscription: each mutation that the store delivers (per its equality check)
is fed to the subscriber callback. -/
def runMutations {V : Type} :
    StoreState V → SubscriberState V → List (Mutation V) →
      StoreState V × SubscriberState V
  | s, hook, [] => (s, hook)
  | s, hook, m :: ms =>
    let r := s.applyMutation m
    runMutations r.1
      (match r.2 with
       | none => hook
       | some v => subscriberCallback hook v) ms

/-- From the spec's words: the number of mutations whose resulting value
fails the store's equality check against the immediately preceding value. -/
def countInequalDeliveries {V : Type} (eqComp : V → V → Bool) :
    V → List (Mutation V) → Nat
  | _, [] => 0
  | cur, m :: ms =>
    if eqComp cur (m.newValue cur) then countInequalDeliveries eqComp cur ms
    else 1 + countInequalDeliveries eqComp (m.newValue cur) ms

theorem subscriberCallback_not_first {V : Type} (st : SubscriberState V)
    (v : V) (h : st.firstSubscriberCall = false) :
    subscriberCallback st v =
      { wrappedValue := some v
        firstSubscriberCall := false
        rerenderFlag := nextRerenderFlag st.rerenderFlag
        rerendersScheduled := st.rerendersScheduled + 1 } := by
  simp [subscriberCallback, h]

theorem runMutations_rerendersScheduled {V : Type} (ms : List (Mutation V)) :
    ∀ (s : StoreState V) (hook : SubscriberState V),
      hook.firstSubscriberCall = false →
      (runMutations s hook ms).2.rerendersScheduled =
        hook.rerendersScheduled + countInequalDeliveries s.eqComp s.value ms := by
  induction ms with
  | nil => intro s hook _; simp [runMutations, countInequalDeliveries]
  | cons m ms ih =>
    intro s hook hfirst
    by_cases h : s.eqComp s.value (m.newValue s.value)
    · simp only [runMutations, StoreState.applyMutation, h, if_pos,
        countInequalDeliveries]
      rw [ih s hook hfirst]
    · simp only [runMutations, StoreState.applyMutation, h, if_neg,
        Bool.false_eq_true, not_false_iff, countInequalDeliveries, if_neg]
      rw [ih _ _ (by simp [subscriberCallback_not_first _ _ hfirst])]
      simp [subscriberCallback_not_first _ _ hfirst]
      omega

theorem subscribeToStore_rerendersScheduled {V : Type} (s : StoreState V)
    (flag : Nat) :
    (subscribeToStore s flag).rerendersScheduled = 0 ∧
      (subscribeToStore s flag).firstSubscriberCall = false := by
  simp [subscribeToStore, subscriberCallback, initialSubscriberState]

/-- Claim C1: for every store subscribed to via `useReadonlyStore` and every
sequence of store mutations, the number of re-renders the bridge schedules
equals the number of deliveries whose value fails the store's equality check
against the immediately preceding value, and the initial synchronous
delivery made at subscribe time never schedules a re-render. -/
theorem useReadonlyStore_rerenders_eq_inequal_deliveries {V : Type}
    (eqComp : V → V → Bool) (v0 : V) (flag : Nat) (ms : List (Mutation V)) :
    (subscribeToStore ⟨eqComp, v0⟩ flag).rerendersScheduled = 0 ∧
      (runMutations ⟨eqComp, v0⟩ (subscribeToStore ⟨eqComp, v0⟩ flag)
          ms).2.rerendersScheduled =
        countInequalDeliveries eqComp v0 ms := by
  obtain ⟨h0, hfirst⟩ := subscribeToStore_rerendersScheduled ⟨eqComp, v0⟩ flag
  refine ⟨h0, ?_⟩
  rw [runMutations_rerendersScheduled ms _ _ hfirst, h0]
  simp

/-! ### The RenderTrigger token (claim C9)

The re-render flag starts at `0` (`useState(0)`, hooks.ts line 56) and each
scheduled update applies `nextRerenderFlag`. -/

theorem iterate_nextRerenderFlag (n : Nat) :
    nextRerenderFlag^[n] 0 = n % maxSafeInteger := by
  induction n with
  | zero => simp [maxSafeInteger]
  | succ n ih =>
    rw [Function.iterate_succ_apply', ih, nextRerenderFlag, Nat.mod_add_mod]

/-- Claim C9 counterexample: the token value `MAX_SAFE_INTEGER - 1` is
reachable from the initial token `0` by scheduled updates, and the update
applied there wraps the token around to `0`, which is not strictly greater
than the previous token value. -/
theorem rerenderFlag_wraparound_counterexample :
    nextRerenderFlag^[9007199254740990] 0 = 9007199254740990 ∧
      nextRerenderFlag 9007199254740990 = 0 ∧
      ¬ 9007199254740990 < nextRerenderFlag 9007199254740990 := by
  have h1 : nextRerenderFlag^[9007199254740990] 0 = 9007199254740990 := by
    rw [iterate_nextRerenderFlag]
    unfold maxSafeInteger
    omega
  have h2 : nextRerenderFlag 9007199254740990 = 0 := by
    unfold nextRerenderFlag maxSafeInteger
    omega
  exact ⟨h1, h2, by omega⟩

/-- Claim C9 (amended): every scheduled update changes the token (the new
token value differs from the previous one); the new value is strictly
greater than the previous one except at the wraparound, where the update of
`MAX_SAFE_INTEGER - 1` produces `0`. -/
theorem rerenderFlag_changes_each_update (r : Nat) (h : r < maxSafeInteger) :
    nextRerenderFlag r ≠ r ∧
      (r + 1 < maxSafeInteger → nextRerenderFlag r = r + 1) ∧
      (r + 1 = maxSafeInteger → nextRerenderFlag r = 0) := by
  unfold nextRerenderFlag maxSafeInteger at *
  omega

/-- Witness for the amended claim C9 at the concrete token value `5`. -/
theorem rerenderFlag_changes_each_update_witness :
    nextRerenderFlag 5 ≠ 5 ∧
      (5 + 1 < maxSafeInteger → nextRerenderFlag 5 = 5 + 1) ∧
      (5 + 1 = maxSafeInteger → nextRerenderFlag 5 = 0) :=
  rerenderFlag_changes_each_update 5 (by unfold maxSafeInteger; omega)

/-! ### The component lifecycle of `useReadonlyStore` (hooks.ts, lines 49-101)

Stores are identified by reference: a `StoreRef` is an opaque identity,
modelled as a natural number.  The environment gives each store its current
value, and records whether its `subscribe` conforms to the store contract by
synchronously invoking the listener before returning. -/

/-- The environment of store instances visible to a component. -/
structure StoreEnv (V : Type) where
  value : Nat → V
  syncDelivers : Nat → Bool

/-- A subscribe/unsubscribe invocation the bridge performs on a store,
tagged with the store reference and the identity of the subscription. -/
inductive SubEvent where
  | subscribe (storeRef : Nat) (subId : Nat)
  | unsubscribe (storeRef : Nat) (subId : Nat)
deriving DecidableEq

/-- The content of `contextRef.current` (hooks.ts, lines 59-66): the bound
store, the live unsubscribe handle (identified by its subscription id), the
mutable value wrapper (`none` models `undefined`), and the
`firstSubscriberCall` flag captured by the subscription closure. -/
structure SubscriptionCtx (V : Type) where
  storeRef : Nat
  subId : Nat
  wrappedValue : Option V
  firstSubscriberCall : Bool

/-- Per-component-instance state: `contextRef` (none before the first
invocation), the `rerenderFlag` state cell with its ghost counter, and a
counter allocating fresh subscription identities. -/
structure ComponentState (V : Type) where
  ctx : Option (SubscriptionCtx V)
  rerenderFlag : Nat
  rerendersScheduled : Nat
  nextSubId : Nat

/-- The state of a freshly mounted component instance: `contextRef` empty,
`rerenderFlag` initialised to `0` by `useState(0)`. -/
def initialComponentState {V : Type} : ComponentState V :=
  { ctx := none, rerenderFlag := 0, rerendersScheduled := 0, nextSubId := 0 }

/-- One invocation of the `useReadonlyStore` hook body (hooks.ts, lines
71-100).  If `contextRef` is empty or holds a different store reference, the
old subscription (if any) is unsubscribed and a subscription to the new
store is established; the new store's `subscribe`, when conforming,
synchronously delivers the current value, which the subscriber callback
records in the fresh value wrapper without scheduling a re-render (the
`firstSubscriberCall` branch).  Returns the updated component state, the
list of subscribe/unsubscribe invocations performed, and the value the
render returns (`contextRef.current.wrappedValue.value`, line 100). -/
def renderStep {V : Type} (env : StoreEnv V) (st : ComponentState V)
    (store : Nat) : ComponentState V × List SubEvent × Option V :=
  match st.ctx with
  | none =>
    let c : SubscriptionCtx V :=
      { storeRef := store
        subId := st.nextSubId
        wrappedValue := if env.syncDelivers store then some (env.value store) else none
        firstSubscriberCall := ! env.syncDelivers store }
    ({ st with ctx := some c, nextSubId := st.nextSubId + 1 },
      [SubEvent.subscribe store st.nextSubId], c.wrappedValue)
  | some c0 =>
    if c0.storeRef = store then (st, [], c0.wrappedValue)
    else
      let c : SubscriptionCtx V :=
        { storeRef := store
          subId := st.nextSubId
          wrappedValue := if env.syncDelivers store then some (env.value store) else none
          firstSubscriberCall := ! env.syncDelivers store }
      ({ st with ctx := some c, nextSubId := st.nextSubId + 1 },
        [SubEvent.unsubscribe c0.storeRef c0.subId,
          SubEvent.subscribe store st.nextSubId], c.wrappedValue)

/-- Running a sequence of hook invocations (one per render, each with the
store reference supplied on that render), collecting all subscription
events in order. -/
def runRenders {V : Type} (env : StoreEnv V) :
    ComponentState V → List Nat → ComponentState V × List SubEvent
  | st, [] => (st, [])
  | st, s :: ss =>
    let r := renderStep env st s
    let rest := runRenders env r.1 ss
    (rest.1, r.2.1 ++ rest.2)

/-- The cleanup registered by the mount effect (hooks.ts, lines 95-98), run
when the component instance is destroyed:
`() => contextRef.current?.unsubscribe()`. -/
def unmountEvents {V : Type} (st : ComponentState V) : List SubEvent :=
  match st.ctx with
  | none => []
  | some c => [SubEvent.unsubscribe c.storeRef c.subId]

/-- The full trace of subscribe/unsubscribe invocations over a component
lifecycle: mount, a sequence of renders, then unmount. -/
def lifecycleTrace {V : Type} (env : StoreEnv V) (renders : List Nat) :
    List SubEvent :=
  let r := runRenders env initialComponentState renders
  r.2 ++ unmountEvents r.1

/-- The `(storeRef, subId)` pairs of the subscribe invocations in a trace,
in order. -/
def subscribePairs : List SubEvent → List (Nat × Nat)
  | [] => []
  | SubEvent.subscribe r i :: tr => (r, i) :: subscribePairs tr
  | SubEvent.unsubscribe _ _ :: tr => subscribePairs tr

/-- The `(storeRef, subId)` pairs of the unsubscribe invocations in a
trace, in order. -/
def unsubscribePairs : List SubEvent → List (Nat × Nat)
  | [] => []
  | SubEvent.unsubscribe r i :: tr => (r, i) :: unsubscribePairs tr
  | SubEvent.subscribe _ _ :: tr => unsubscribePairs tr

/-- Number of subscribe invocations a trace makes on the store `s`. -/
def subscribeCount (s : Nat) (tr : List SubEvent) : Nat :=
  (subscribePairs tr).countP (fun p => p.1 == s)

/-- Number of unsubscribe invocations a trace makes on the store `s`. -/
def unsubscribeCount (s : Nat) (tr : List SubEvent) : Nat :=
  (unsubscribePairs tr).countP (fun p => p.1 == s)

/-- The subscription currently held by a component state, as the pair list
it would contribute to the trace upon unmount. -/
def pendingSubscription {V : Type} (st : ComponentState V) :
    List (Nat × Nat) :=
  match st.ctx with
  | none => []
  | some c => [(c.storeRef, c.subId)]

theorem subscribePairs_append (t1 t2 : List SubEvent) :
    subscribePairs (t1 ++ t2) = subscribePairs t1 ++ subscribePairs t2 := by
  induction t1 with
  | nil => simp [subscribePairs]
  | cons e tr ih => cases e <;> simp [subscribePairs, ih]

theorem unsubscribePairs_append (t1 t2 : List SubEvent) :
    unsubscribePairs (t1 ++ t2) =
      unsubscribePairs t1 ++ unsubscribePairs t2 := by
  induction t1 with
  | nil => simp [unsubscribePairs]
  | cons e tr ih => cases e <;> simp [unsubscribePairs, ih]

theorem renderStep_pairs {V : Type} (env : StoreEnv V)
    (st : ComponentState V) (s : Nat) :
    unsubscribePairs (renderStep env st s).2.1 ++
        pendingSubscription (renderStep env st s).1 =
      pendingSubscription st ++ subscribePairs (renderStep env st s).2.1 := by
  match h : st.ctx with
  | none =>
    simp [renderStep, h, pendingSubscription, subscribePairs, unsubscribePairs]
  | some c0 =>
    by_cases hs : c0.storeRef = s
    · simp [renderStep, h, hs, pendingSubscription, subscribePairs,
        unsubscribePairs]
    · simp [renderStep, h, hs, pendingSubscription, subscribePairs,
        unsubscribePairs]

theorem runRenders_pairs {V : Type} (env : StoreEnv V) (renders : List Nat) :
    ∀ st : ComponentState V,
      unsubscribePairs (runRenders env st renders).2 ++
          pendingSubscription (runRenders env st renders).1 =
        pendingSubscription st ++
          subscribePairs (runRenders env st renders).2 := by
  induction renders with
  | nil => intro st; simp [runRenders, subscribePairs, unsubscribePairs]
  | cons s ss ih =>
    intro st
    simp only [runRenders, subscribePairs_append, unsubscribePairs_append]
    rw [List.append_assoc, ih (renderStep env st s).1, ← List.append_assoc,
      renderStep_pairs env st s, List.append_assoc]

theorem unsubscribePairs_unmount {V : Type} (st : ComponentState V) :
    unsubscribePairs (unmountEvents st) = pendingSubscription st := by
  match h : st.ctx with
  | none => simp [unmountEvents, h, pendingSubscription, unsubscribePairs]
  | some c => simp [unmountEvents, h, pendingSubscription, unsubscribePairs]

theorem subscribePairs_unmount {V : Type} (st : ComponentState V) :
    subscribePairs (unmountEvents st) = [] := by
  match h : st.ctx with
  | none => simp [unmountEvents, h, subscribePairs]
  | some c => simp [unmountEvents, h, subscribePairs]

theorem pendingSubscription_length_le_one {V : Type}
    (st : ComponentState V) : (pendingSubscription st).length ≤ 1 := by
  cases h : st.ctx <;> simp [pendingSubscription, h]

theorem renderStep_pairs_length {V : Type} (env : StoreEnv V)
    (st : ComponentState V) (s : Nat) :
    (unsubscribePairs (renderStep env st s).2.1).length +
        (pendingSubscription (renderStep env st s).1).length =
      (pendingSubscription st).length +
        (subscribePairs (renderStep env st s).2.1).length := by
  have h := congrArg List.length (renderStep_pairs env st s)
  simpa [List.length_append] using h

theorem renderStep_prefix_bound {V : Type} (env : StoreEnv V)
    (st : ComponentState V) (s : Nat) (n : Nat) :
    (subscribePairs (((renderStep env st s).2.1).take n)).length +
        (pendingSubscription st).length ≤
      (unsubscribePairs (((renderStep env st s).2.1).take n)).length + 1 := by
  match h : st.ctx with
  | none =>
    match n with
    | 0 =>
      simp [renderStep, h, subscribePairs, unsubscribePairs,
        pendingSubscription]
    | n + 1 =>
      simp [renderStep, h, subscribePairs, unsubscribePairs,
        pendingSubscription]
  | some c0 =>
    by_cases hs : c0.storeRef = s
    · simp [renderStep, h, hs, subscribePairs, unsubscribePairs,
        pendingSubscription, pendingSubscription_length_le_one]
    · match n with
      | 0 =>
        simp [renderStep, h, hs, subscribePairs, unsubscribePairs,
          pendingSubscription]
      | 1 =>
        simp [renderStep, h, hs, subscribePairs, unsubscribePairs,
          pendingSubscription]
      | n + 2 =>
        simp [renderStep, h, hs, subscribePairs, unsubscribePairs,
          pendingSubscription]

theorem runRenders_prefix_bound {V : Type} (env : StoreEnv V)
    (renders : List Nat) :
    ∀ (st : ComponentState V) (n : Nat),
      (subscribePairs (((runRenders env st renders).2).take n)).length +
          (pendingSubscription st).length ≤
        (unsubscribePairs (((runRenders env st renders).2).take n)).length +
          1 := by
  induction renders with
  | nil =>
    intro st n
    simpa [runRenders, subscribePairs, unsubscribePairs] using
      pendingSubscription_length_le_one st
  | cons s ss ih =>
    intro st n
    simp only [runRenders, List.take_append_eq_append_take,
      subscribePairs_append, unsubscribePairs_append, List.length_append]
    by_cases hn : n ≤ (renderStep env st s).2.1.length
    · have hz : n - (renderStep env st s).2.1.length = 0 := by omega
      rw [hz]
      simpa [subscribePairs, unsubscribePairs] using
        renderStep_prefix_bound env st s n
    · have hE : ((renderStep env st s).2.1).take n =
          (renderStep env st s).2.1 := List.take_of_length_le (by omega)
      rw [hE]
      have e1 := renderStep_pairs_length env st s
      have e2 := ih (renderStep env st s).1
        (n - (renderStep env st s).2.1.length)
      omega

theorem renderStep_subPairs_cases {V : Type} (env : StoreEnv V)
    (st : ComponentState V) (s : Nat) :
    (subscribePairs (renderStep env st s).2.1 = [] ∧
        (renderStep env st s).1.nextSubId = st.nextSubId) ∨
      (subscribePairs (renderStep env st s).2.1 = [(s, st.nextSubId)] ∧
        (renderStep env st s).1.nextSubId = st.nextSubId + 1) := by
  match h : st.ctx with
  | none =>
    exact Or.inr (by simp [renderStep, h, subscribePairs])
  | some c0 =>
    by_cases hs : c0.storeRef = s
    · exact Or.inl (by simp [renderStep, h, hs, subscribePairs])
    · exact Or.inr (by simp [renderStep, h, hs, subscribePairs])

theorem runRenders_subIds {V : Type} (env : StoreEnv V)
    (renders : List Nat) :
    ∀ st : ComponentState V,
      (∀ p ∈ subscribePairs (runRenders env st renders).2,
          st.nextSubId ≤ p.2 ∧
            p.2 < (runRenders env st renders).1.nextSubId) ∧
        st.nextSubId ≤ (runRenders env st renders).1.nextSubId ∧
        (subscribePairs (runRenders env st renders).2).Pairwise
          (fun a b => a.2 < b.2) := by
  induction renders with
  | nil =>
    intro st
    simp [runRenders, subscribePairs]
  | cons s ss ih =>
    intro st
    obtain ⟨ihmem, ihle, ihpw⟩ := ih (renderStep env st s).1
    simp only [runRenders, subscribePairs_append]
    rcases renderStep_subPairs_cases env st s with ⟨hE, hid⟩ | ⟨hE, hid⟩
    · rw [hE]
      refine ⟨?_, ?_, by simpa using ihpw⟩
      · intro p hp
        have := ihmem p (by simpa using hp)
        omega
      · omega
    · rw [hE]
      refine ⟨?_, ?_, ?_⟩
      · intro p hp
        rcases List.mem_cons.mp hp with hph | hpt
        · subst hph
          constructor
          · exact Nat.le_refl _
          · have := ihle
            omega
        · have := ihmem p hpt
          omega
      · omega
      · simp only [List.singleton_append]
        rw [List.pairwise_cons]
        refine ⟨?_, ihpw⟩
        intro p hp
        have := ihmem p hp
        omega

theorem runRenders_subPairs_nodup {V : Type} (env : StoreEnv V)
    (renders : List Nat) (st : ComponentState V) :
    (subscribePairs (runRenders env st renders).2).Nodup := by
  have hpw := (runRenders_subIds env renders st).2.2
  exact hpw.imp (fun hlt => by
    intro heq
    rw [heq] at hlt
    exact absurd hlt (lt_irrefl _))

/-- Claim C3: over every component lifecycle (mount, any sequence of render
invocations with possibly changing store references, then unmount), the
unsubscribe invocations the bridge performs pair up exactly, in order, with
the subscribe invocations it performed: for every store reference the
number of unsubscribe invocations equals the number of subscribe
invocations made against that exact store reference, the subscriptions made
are pairwise distinct and each is released exactly once (no leak, no double
release), and at every point of the trace at most one subscription is live
— a stale subscription from a discarded render attempt is released before
the replacing subscription is established.  Repeated invocations within a
single render pass (strict double invocation) are instances of the
quantified render sequence. -/
theorem useReadonlyStore_subscription_balance {V : Type} (env : StoreEnv V)
    (renders : List Nat) :
    unsubscribePairs (lifecycleTrace env renders) =
        subscribePairs (lifecycleTrace env renders) ∧
      (∀ s : Nat, subscribeCount s (lifecycleTrace env renders) =
        unsubscribeCount s (lifecycleTrace env renders)) ∧
      (subscribePairs (lifecycleTrace env renders)).Nodup ∧
      ∀ n : Nat,
        (subscribePairs ((lifecycleTrace env renders).take n)).length ≤
          (unsubscribePairs ((lifecycleTrace env renders).take n)).length +
            1 := by
  have key : unsubscribePairs (lifecycleTrace env renders) =
      subscribePairs (lifecycleTrace env renders) := by
    unfold lifecycleTrace
    simp only [subscribePairs_append, unsubscribePairs_append,
      subscribePairs_unmount, unsubscribePairs_unmount, List.append_nil]
    have h := runRenders_pairs env renders initialComponentState
    simpa [initialComponentState, pendingSubscription] using h
  refine ⟨key, fun s => by rw [subscribeCount, unsubscribeCount, key], ?_, ?_⟩
  · unfold lifecycleTrace
    simp only [subscribePairs_append, subscribePairs_unmount,
      List.append_nil]
    exact runRenders_subPairs_nodup env renders initialComponentState
  · intro n
    unfold lifecycleTrace
    simp only [List.take_append_eq_append_take, subscribePairs_append,
      unsubscribePairs_append, List.length_append]
    have h1 := runRenders_prefix_bound env renders initialComponentState n
    have hpe : pendingSubscription (initialComponentState (V := V)) = [] := rfl
    rw [hpe] at h1
    simp only [List.length_nil] at h1
    have h2 : (subscribePairs
        ((unmountEvents (runRenders env initialComponentState renders).1).take
          (n - (runRenders env initialComponentState renders).2.length))) =
        [] := by
      cases hc : (runRenders env initialComponentState renders).1.ctx with
      | none => simp [unmountEvents, hc, subscribePairs]
      | some c =>
        match hn : n - (runRenders env initialComponentState renders).2.length
            with
        | 0 => simp [unmountEvents, hc, subscribePairs]
        | m + 1 => simp [unmountEvents, hc, subscribePairs]
    rw [h2]
    simp only [List.length_nil]
    omega

/-- Claim C2: whenever `useReadonlyStore` is invoked for the first time on a
component instance, or with a store reference different from the currently
bound one, and the store conforms to the contract (its `subscribe`
synchronously delivers the current value), the bridge first unsubscribes the
existing subscription (if any) and then subscribes to the new store, in that
order; the synchronously delivered value is captured into the value wrapper
and returned as the value of the current render, and the context is rebound
to the new store.  Applied along a render sequence in which the reference
changes on every render, each step performs such a full
unsubscribe/resubscribe cycle. -/
theorem useReadonlyStore_resubscribes_on_store_change {V : Type}
    (env : StoreEnv V) (st : ComponentState V) (s : Nat)
    (hconf : env.syncDelivers s = true)
    (hchange : ∀ c, st.ctx = some c → c.storeRef ≠ s) :
    (renderStep env st s).2.1 =
        (match st.ctx with
         | none => []
         | some c0 => [SubEvent.unsubscribe c0.storeRef c0.subId]) ++
          [SubEvent.subscribe s st.nextSubId] ∧
      (renderStep env st s).2.2 = some (env.value s) ∧
      ∃ c, (renderStep env st s).1.ctx = some c ∧ c.storeRef = s ∧
        c.wrappedValue = some (env.value s) := by
  match h : st.ctx with
  | none =>
    refine ⟨by simp [renderStep, h, hconf], by simp [renderStep, h, hconf], ?_⟩
    exact ⟨⟨s, st.nextSubId, some (env.value s), false⟩,
      by simp [renderStep, h, hconf], rfl, rfl⟩
  | some c0 =>
    have hne : ¬ c0.storeRef = s := hchange c0 h
    refine ⟨by simp [renderStep, h, hne, hconf],
      by simp [renderStep, h, hne, hconf], ?_⟩
    exact ⟨⟨s, st.nextSubId, some (env.value s), false⟩,
      by simp [renderStep, h, hne, hconf], rfl, rfl⟩

/-- Witness for claim C2: a freshly mounted component invoked with store `0`
in an environment where store `0` holds value `7`. -/
theorem useReadonlyStore_resubscribes_on_store_change_witness :
    (renderStep (V := Nat) ⟨fun _ => 7, fun _ => true⟩
          initialComponentState 0).2.1 =
        (match (initialComponentState (V := Nat)).ctx with
         | none => []
         | some c0 => [SubEvent.unsubscribe c0.storeRef c0.subId]) ++
          [SubEvent.subscribe 0 (initialComponentState (V := Nat)).nextSubId] ∧
      (renderStep (V := Nat) ⟨fun _ => 7, fun _ => true⟩
          initialComponentState 0).2.2 = some 7 ∧
      ∃ c, (renderStep (V := Nat) ⟨fun _ => 7, fun _ => true⟩
          initialComponentState 0).1.ctx = some c ∧ c.storeRef = 0 ∧
        c.wrappedValue = some 7 :=
  useReadonlyStore_resubscribes_on_store_change
    ⟨fun _ => 7, fun _ => true⟩ initialComponentState 0 rfl
    (by intro c hc; simp [initialComponentState] at hc)

/-- Claim C10: `useReadonlyStore` reads the store's value only through the
listener passed to `subscribe`: the value wrapper is created holding
`undefined` and is assigned only inside the subscription callback.  For a
store whose `subscribe` does not synchronously invoke the listener before
returning, the hook still establishes the context and returns `undefined`
(modelled as `none`) for that render, with the wrapper still unassigned and
the first-call flag still pending. -/
theorem useReadonlyStore_nonconforming_subscribe_returns_none {V : Type}
    (env : StoreEnv V) (s : Nat) (h : env.syncDelivers s = false) :
    (renderStep env initialComponentState s).2.2 = none ∧
      ∃ c, (renderStep env initialComponentState s).1.ctx = some c ∧
        c.storeRef = s ∧ c.wrappedValue = none ∧
        c.firstSubscriberCall = true := by
  refine ⟨by simp [renderStep, initialComponentState, h], ?_⟩
  exact ⟨⟨s, 0, none, true⟩,
    by simp [renderStep, initialComponentState, h], rfl, rfl, rfl⟩

/-- Witness for claim C10: a store whose subscribe never delivers
synchronously, on a fresh component instance. -/
theorem useReadonlyStore_nonconforming_subscribe_returns_none_witness :
    (renderStep (V := Nat) ⟨fun _ => 7, fun _ => false⟩
          initialComponentState 3).2.2 = none ∧
      ∃ c, (renderStep (V := Nat) ⟨fun _ => 7, fun _ => false⟩
          initialComponentState 3).1.ctx = some c ∧
        c.storeRef = 3 ∧ c.wrappedValue = none ∧
        c.firstSubscriberCall = true :=
  useReadonlyStore_nonconforming_subscribe_returns_none
    ⟨fun _ => 7, fun _ => false⟩ 3 rfl

/-! ### The write adapter `useStore` (hooks.ts, lines 127-142) -/

/-- An argument passed to the setter returned by `useStore`: either an
invocable updater function or a plain (non-invocable) value, mirroring the
`typeof newValueOrUpdater === 'function'` discrimination. -/
inductive SetterArg (V : Type) where
  | updaterArg (f : V → V)
  | valueArg (v : V)

/-- Whether the argument is invocable (`typeof x === 'function'`). -/
def SetterArg.isInvocable {V : Type} : SetterArg V → Bool
  | .updaterArg _ => true
  | .valueArg _ => false

/-- An operation invoked on the bound store. -/
inductive StoreCall (V : Type) where
  | update (f : V → V)
  | set (v : V)

/-- Whether a store operation is the `update` operation. -/
def StoreCall.isUpdate {V : Type} : StoreCall V → Bool
  | .update _ => true
  | .set _ => false

/-- The setter body created by `useStore` (hooks.ts, lines 132-138): an
invocable argument is routed to `store.update`, any other argument to
`store.set`, the argument passed through unchanged in both cases. -/
def setterBody {V : Type} (arg : SetterArg V) : StoreCall V :=
  match arg with
  | .updaterArg f => .update f
  | .valueArg v => .set v

/-- Claim C6: every call of the setter returned by `useStore` routes an
invocable argument to the store's `update` operation and a non-invocable
argument to the store's `set` operation, passing the argument through
unchanged; which operation is chosen depends only on whether the argument
is invocable. -/
theorem useStore_setter_dispatch (V : Type) :
    (∀ f : V → V, setterBody (.updaterArg f) = .update f) ∧
      (∀ v : V, setterBody (.valueArg v) = .set v) ∧
      (∀ arg : SetterArg V, (setterBody arg).isUpdate = arg.isInvocable) := by
  refine ⟨fun f => rfl, fun v => rfl, fun arg => ?_⟩
  cases arg <;> rfl

/-- The `useCallback` memoisation with dependency array `[store]`
(hooks.ts, lines 131-140).  The memo cell holds the store reference the
setter was created against together with the setter's identity; on each
render the memoised setter is kept when the store reference is unchanged,
and a freshly allocated setter identity replaces it otherwise. -/
def useCallbackStep (memo : Option (Nat × Nat)) (store : Nat)
    (fresh : Nat) : Nat × Nat :=
  match memo with
  | some (prevStore, setterId) =>
    if prevStore = store then (prevStore, setterId) else (store, fresh)
  | none => (store, fresh)

/-- Claim C7: across consecutive renders of a component using `useStore`,
the returned setter keeps its identity as long as the store argument is the
same store reference, and is replaced by a fresh setter exactly when the
store argument changes identity (the first render allocating the initial
setter). -/
theorem useStore_setter_identity_stability (s i fresh other : Nat)
    (h : other ≠ s) :
    useCallbackStep (some (s, i)) s fresh = (s, i) ∧
      useCallbackStep (some (s, i)) other fresh = (other, fresh) ∧
      useCallbackStep none s fresh = (s, fresh) := by
  refine ⟨by simp [useCallbackStep], ?_, rfl⟩
  have hne : ¬ s = other := fun hh => h hh.symm
  simp [useCallbackStep, hne]

/-- Witness for claim C7 at concrete store references `0` and `1`. -/
theorem useStore_setter_identity_stability_witness :
    useCallbackStep (some (0, 5)) 0 9 = (0, 5) ∧
      useCallbackStep (some (0, 5)) 1 9 = (1, 9) ∧
      useCallbackStep none 0 9 = (0, 9) :=
  useStore_setter_identity_stability 0 5 9 1 (by decide)

/-! ### The multi-store bridge `useReadonlyStores`

The input collection is either an ordered sequence of store references or a
key-to-store mapping.  `Object.entries` normalises both shapes into a list
of key/store pairs, with array indices acting as implicit keys. -/

/-- A key of a normalised collection entry: an array index or a mapping
key. -/
inductive CollKey where
  | idx (i : Nat)
  | key (s : String)
deriving DecidableEq

/-- A collection of store references handed to `useReadonlyStores`: an
array or a key-to-store object. -/
inductive StoreColl where
  | arr (refs : List Nat)
  | obj (entries : List (String × Nat))
deriving DecidableEq

/-- `Object.entries` applied to the collection: key/store pairs in order,
array indices as keys. -/
def StoreColl.entriesList : StoreColl → List (CollKey × Nat)
  | .arr refs => refs.enum.map (fun p => (CollKey.idx p.1, p.2))
  | .obj es => es.map (fun p => (CollKey.key p.1, p.2))

/-- The keys of the normalised collection. -/
def collKeys (c : StoreColl) : List CollKey :=
  c.entriesList.map Prod.fst

/-- Property access `stores[k]` on a collection: the store reference under
key `k`, if present. -/
def lookupKey : List (CollKey × Nat) → CollKey → Option Nat
  | [], _ => none
  | (k, v) :: rest, k0 => if k = k0 then some v else lookupKey rest k0

/-- The deep comparison performed by `useReadonlyStores` between the
previously bound collection and the collection supplied on the current
render (part_007, lines 204-218): the collections differ when the entry
lists have different lengths or some previously bound entry's store
reference is not the one found under the same key in the new collection. -/
def entriesChanged (current new : List (CollKey × Nat)) : Bool :=
  current.length != new.length ||
    current.any (fun kv => lookupKey new kv.1 != some kv.2)

/-- The state kept by `useReadonlyStores` across renders: the bound
collection and the identity of the Derived Store Instance built over it. -/
structure MultiContext where
  stores : StoreColl
  derivedId : Nat
deriving DecidableEq

/-- The collection-identity tracking step of `useReadonlyStores` (part_007,
lines 204-219): when the supplied collection differs from the bound one per
`entriesChanged`, a new Derived Store Instance (modelled by a fresh
identity) is constructed over the new collection; otherwise the context is
left untouched.  The returned flag records whether a new derived store was
constructed. -/
def multiEffectStep (ctx : MultiContext) (stores : StoreColl)
    (fresh : Nat) : MultiContext × Bool :=
  if entriesChanged ctx.stores.entriesList stores.entriesList then
    ({ stores := stores, derivedId := fresh }, true)
  else (ctx, false)

theorem lookupKey_eq_none_iff (es : List (CollKey × Nat)) (k : CollKey) :
    lookupKey es k = none ↔ k ∉ es.map Prod.fst := by
  induction es with
  | nil => simp [lookupKey]
  | cons kv rest ih =>
    by_cases h : kv.1 = k
    · simp [lookupKey, h]
    · have hks : ¬ k = kv.1 := fun hh => h hh.symm
      simp [lookupKey, h, hks, ih]

theorem mem_of_lookupKey_some (es : List (CollKey × Nat)) (k : CollKey)
    (v : Nat) (h : lookupKey es k = some v) : (k, v) ∈ es := by
  induction es with
  | nil => simp [lookupKey] at h
  | cons kv rest ih =>
    by_cases hk : kv.1 = k
    · simp only [lookupKey, hk, if_pos] at h
      obtain ⟨k1, v1⟩ := kv
      simp_all
    · simp only [lookupKey, hk, if_neg, Bool.false_eq_true,
        not_false_iff] at h
      exact List.mem_cons_of_mem _ (ih h)

theorem lookupKey_of_mem_nodup (es : List (CollKey × Nat)) (k : CollKey)
    (v : Nat) (hnd : (es.map Prod.fst).Nodup) (hm : (k, v) ∈ es) :
    lookupKey es k = some v := by
  induction es with
  | nil => simp at hm
  | cons kv rest ih =>
    simp only [List.map_cons, List.nodup_cons] at hnd
    rcases List.mem_cons.mp hm with h | h
    · simp [lookupKey, ← h]
    · have hk : ¬ kv.1 = k := by
        intro hh
        exact hnd.1 (hh ▸ (List.mem_map.mpr ⟨(k, v), h, rfl⟩))
      simp only [lookupKey, hk, if_neg, Bool.false_eq_true, not_false_iff]
      exact ih hnd.2 h

theorem entriesChanged_iff (oldE newE : List (CollKey × Nat))
    (h1 : (oldE.map Prod.fst).Nodup) (h2 : (newE.map Prod.fst).Nodup) :
    entriesChanged oldE newE = true ↔
      oldE.length ≠ newE.length ∨
        ∃ k, lookupKey oldE k ≠ lookupKey newE k := by
  constructor
  · intro h
    simp only [entriesChanged, Bool.or_eq_true, bne_iff_ne,
      List.any_eq_true] at h
    rcases h with h | ⟨kv, hmem, hne⟩
    · exact Or.inl h
    · refine Or.inr ⟨kv.1, ?_⟩
      rw [lookupKey_of_mem_nodup oldE kv.1 kv.2 h1 hmem]
      simpa [eq_comm] using hne
  · intro h
    by_contra hc
    simp only [entriesChanged, Bool.or_eq_true, bne_iff_ne,
      List.any_eq_true] at hc
    push_neg at hc
    obtain ⟨hlen, hall⟩ := hc
    rcases h with h | ⟨k, hk⟩
    · exact h hlen
    · apply hk
      cases hv : lookupKey oldE k with
      | some v =>
        exact (hall (k, v) (mem_of_lookupKey_some oldE k v hv)).symm
      | none =>
        have hknot : k ∉ oldE.map Prod.fst :=
          (lookupKey_eq_none_iff oldE k).mp hv
        have hsub : (oldE.map Prod.fst).toFinset ⊆
            (newE.map Prod.fst).toFinset := by
          intro k1 hk1
          rw [List.mem_toFinset] at hk1 ⊢
          obtain ⟨kv1, hkv1, hfst⟩ := List.mem_map.mp hk1
          have hl := hall kv1 hkv1
          exact hfst ▸ List.mem_map.mpr
            ⟨(kv1.1, kv1.2), mem_of_lookupKey_some newE kv1.1 kv1.2 hl, rfl⟩
        have hcards : ((newE.map Prod.fst).toFinset).card ≤
            ((oldE.map Prod.fst).toFinset).card := by
          rw [List.toFinset_card_of_nodup h1, List.toFinset_card_of_nodup h2]
          simp [hlen]
        have hsets := Finset.eq_of_subset_of_card_le hsub hcards
        have hknew : k ∉ newE.map Prod.fst := by
          intro hmem
          exact hknot (by
            have hmt : k ∈ (newE.map Prod.fst).toFinset :=
              List.mem_toFinset.mpr hmem
            rw [← hsets] at hmt
            exact List.mem_toFinset.mp hmt)
        rw [(lookupKey_eq_none_iff newE k).mpr hknew]

/-- Claim C4: between consecutive renders of a component using
`useReadonlyStores`, a new Derived Store Instance is constructed if and only
if the normalised input collection's length changed or the store reference
found under some (positional or mapping) key differs from the previous
render's collection — and when no new derived store is constructed the
context, including the derived store identity the subscription is bound to,
is left untouched, so no new subscription is made.  Only reference identity
of each store enters the comparison: the collections carry no store
values. -/
theorem useReadonlyStores_new_derived_iff_collection_changed
    (old new : StoreColl) (d fresh : Nat)
    (h1 : (collKeys old).Nodup) (h2 : (collKeys new).Nodup) :
    ((multiEffectStep ⟨old, d⟩ new fresh).2 = true ↔
        old.entriesList.length ≠ new.entriesList.length ∨
          ∃ k, lookupKey old.entriesList k ≠ lookupKey new.entriesList k) ∧
      ((multiEffectStep ⟨old, d⟩ new fresh).2 = false →
        (multiEffectStep ⟨old, d⟩ new fresh).1 = ⟨old, d⟩) := by
  constructor
  · rw [show (multiEffectStep ⟨old, d⟩ new fresh).2 =
        entriesChanged old.entriesList new.entriesList by
      simp only [multiEffectStep]
      split <;> simp_all]
    exact entriesChanged_iff old.entriesList new.entriesList h1 h2
  · intro h
    simp only [multiEffectStep] at h ⊢
    split at h <;> simp_all

/-- Witness for claim C4: reordering the two distinct stores of an array
collection constructs a new Derived Store Instance. -/
theorem useReadonlyStores_new_derived_iff_collection_changed_witness :
    (multiEffectStep ⟨StoreColl.arr [0, 1], 0⟩ (StoreColl.arr [1, 0])
        7).2 = true :=
  (useReadonlyStores_new_derived_iff_collection_changed
      (StoreColl.arr [0, 1]) (StoreColl.arr [1, 0]) 0 7 (by decide)
      (by decide)).1.mpr
    (Or.inr ⟨CollKey.idx 0, by decide⟩)

/-! ### The derived store built by `useReadonlyStores` -/

/-- A collection of store values, parallel in shape to a `StoreColl`. -/
inductive ValColl (V : Type) where
  | arr (vals : List V)
  | obj (entries : List (String × V))
deriving DecidableEq

/-- Modelled from the spec: the derived-store factory reads the current
values of the input stores into a collection parallel to the input
(sequence in, sequence out; mapping in, mapping out) and applies the
combiner to it.  `env` gives each store reference its current value. -/
def collectValues {V : Type} (env : Nat → V) : StoreColl → ValColl V
  | .arr refs => .arr (refs.map env)
  | .obj es => .obj (es.map (fun p => (p.1, env p.2)))

/-- The current value of the derived store built over `c` with `combiner`. -/
def derivedStoreValue {V : Type} (env : Nat → V) (c : StoreColl)
    (combiner : ValColl V → ValColl V) : ValColl V :=
  combiner (collectValues env c)

/-- The combiner `useReadonlyStores` passes to the derived-store factory:
the identity function `(x) => x` (part_007, lines 200 and 216). -/
def identityCombiner {V : Type} (x : ValColl V) : ValColl V := x

/-- The value `useReadonlyStores` returns for a render: the current value
of the Derived Store Instance built over the bound collection with the
identity combiner. -/
def useReadonlyStoresValue {V : Type} (env : Nat → V) (stores : StoreColl) :
    ValColl V :=
  derivedStoreValue env stores identityCombiner

/-- Modelled from the spec: the input stores a Derived Store Instance
subscribes to — one subscription per entry of the input collection. -/
def derivedInputRefs (c : StoreColl) : List Nat :=
  c.entriesList.map Prod.snd

/-- Claim C5: for every collection of stores given to `useReadonlyStores`,
the returned value is the parallel collection of the stores' current
values, preserving the input's shape — an array of store references yields
the array of their values position by position (so a store reference
appearing at several positions contributes its value at each of them), and
a key-to-store mapping yields the mapping with the same keys in the same
order, each key bound to its store's value — obtained through a combiner
that is the identity on its argument collection. -/
theorem useReadonlyStores_identity_combination_shape {V : Type}
    (env : Nat → V) :
    (∀ refs, useReadonlyStoresValue env (StoreColl.arr refs) =
        ValColl.arr (refs.map env)) ∧
      (∀ es, useReadonlyStoresValue env (StoreColl.obj es) =
        ValColl.obj (es.map (fun p => (p.1, env p.2)))) ∧
      (∀ x : ValColl V, identityCombiner x = x) := by
  exact ⟨fun refs => rfl, fun es => rfl, fun x => rfl⟩

/-- Claim C8: `useReadonlyStores` given an empty collection returns the
empty collection of the same shape (empty array in, empty array of values
out; empty mapping in, empty mapping of values out), and the derived store
it builds has no input stores to subscribe to, so no subscription is
created on any input store. -/
theorem useReadonlyStores_empty_collection {V : Type} (env : Nat → V) :
    useReadonlyStoresValue env (StoreColl.arr []) = ValColl.arr [] ∧
      useReadonlyStoresValue env (StoreColl.obj []) = ValColl.obj [] ∧
      derivedInputRefs (StoreColl.arr []) = [] ∧
      derivedInputRefs (StoreColl.obj []) = [] := by
  exact ⟨rfl, rfl, rfl, rfl⟩

end StoresReactAdapter
